import Mathlib

/-
Verification of the nastie dashboard's core against its specification.

The program (src/main.rs) polls a FreeNAS/TrueNAS REST API for jails and
plugins, merges the two collections into a map from jail id to a view
record (`list`), and publishes that map through an `Arc<RwLock<HashMap>>`
shared between one background poller thread and the HTTP request handlers.

This file shallowly embeds:
  * the JSON values the program manipulates (the `json` crate's
    `JsonValue`, with its `Display` behaviour: strings print raw,
    `Null` prints "null", arrays/objects print as serialized JSON);
  * the string transformations used for icon derivation
    (`str::trim_end_matches`, `str::replace` for non-empty patterns);
  * the `list` merge function itself, with a `HashMap` modelled as an
    association list with unique keys; `list` returns `Option` because
    the source can panic (`admin_urls[0]` is a `Vec` index and panics
    when a matching plugin has an empty `admin_portals` array);
  * the `static_file` route handler's dispatch logic;
  * a small-step interleaving model of the poller loop and the request
    handlers sharing the `RwLock` (including poisoning: the poller's
    panics happen while it holds the write guard).
-/

set_option autoImplicit false

namespace Nastie

/-! ## JSON values (the `json` crate)

`json::JsonValue`, restricted to the shapes the program touches.  The
crate's `Short` and `String` variants are collapsed into `str`; numbers
are restricted to integers (whose `Display` agrees with `toString`).
-/

inductive JsonValue where
  | null
  | boolean (b : Bool)
  | num (n : Int)
  | str (s : String)
  | arr (xs : List JsonValue)
  | obj (fields : List (String × JsonValue))

/-- One escaped character of the `json` crate's string writer. -/
def hexDigit (n : Nat) : Char :=
  if n < 10 then Char.ofNat (48 + n) else Char.ofNat (87 + n)

/-- JSON string escaping as performed by the `json` crate's generator. -/
def escapeChar (c : Char) : List Char :=
  if c = '"' then ['\\', '"']
  else if c = '\\' then ['\\', '\\']
  else if c = Char.ofNat 8 then ['\\', 'b']
  else if c = Char.ofNat 9 then ['\\', 't']
  else if c = Char.ofNat 10 then ['\\', 'n']
  else if c = Char.ofNat 12 then ['\\', 'f']
  else if c = Char.ofNat 13 then ['\\', 'r']
  else if c.toNat < 32 then
    ['\\', 'u', '0', '0', hexDigit (c.toNat / 16), hexDigit (c.toNat % 16)]
  else [c]

def jsonEscape (s : String) : String :=
  ⟨s.data.foldr (fun c acc => escapeChar c ++ acc) []⟩

mutual

/-- `JsonValue::dump`: serialize to JSON text. -/
def jsonDump : JsonValue → String
  | .null => "null"
  | .boolean b => if b then "true" else "false"
  | .num n => toString n
  | .str s => "\"" ++ jsonEscape s ++ "\""
  | .arr xs => "[" ++ jsonDumpElems xs ++ "]"
  | .obj fs => "\x7b" ++ jsonDumpFields fs ++ "\x7d"

def jsonDumpElems : List JsonValue → String
  | [] => ""
  | [x] => jsonDump x
  | x :: y :: rest => jsonDump x ++ "," ++ jsonDumpElems (y :: rest)

def jsonDumpFields : List (String × JsonValue) → String
  | [] => ""
  | [(k, v)] => "\"" ++ jsonEscape k ++ "\":" ++ jsonDump v
  | (k, v) :: f :: rest =>
      "\"" ++ jsonEscape k ++ "\":" ++ jsonDump v ++ "," ++ jsonDumpFields (f :: rest)

end

/-- The `json` crate's `Display` for `JsonValue` (what `.to_string()`
produces): short/string values print raw (no quotes), `Null` prints
`"null"`, booleans and numbers print plainly, arrays and objects print
as serialized JSON via `dump`. -/
def jsonDisplay : JsonValue → String
  | .null => "null"
  | .boolean b => if b then "true" else "false"
  | .num n => toString n
  | .str s => s
  | .arr xs => jsonDump (.arr xs)
  | .obj fs => jsonDump (.obj fs)

def fieldLookup : List (String × JsonValue) → String → JsonValue
  | [], _ => .null
  | (k, v) :: rest, key => if k = key then v else fieldLookup rest key

/-- `value[key]` for a string key: member of an object, `Null` otherwise
(the `json` crate's lenient `Index<&str>`). -/
def jsonField (v : JsonValue) (key : String) : JsonValue :=
  match v with
  | .obj fields => fieldLookup fields key
  | _ => .null

/-- `JsonValue::members()`: the elements of an array, or an empty
iterator for any other variant. -/
def jsonMembers : JsonValue → List JsonValue
  | .arr xs => xs
  | _ => []

/-! ## String transformations (`str::trim_end_matches`, `str::replace`)

Both are defined with a `Nat` fuel equal to the input length so that they
are structurally recursive and hence kernel-computable; every iteration
consumes at least one character, so the fuel never runs out.
Trailing-match trimming is performed on the reversed character list,
where a trailing occurrence becomes a leading one.
-/

/-- Strip every leading occurrence of `pat` from `s` (at most `fuel`
rounds). -/
def trimStartAux : Nat → List Char → List Char → List Char
  | 0, _, s => s
  | fuel + 1, pat, s =>
      if pat ≠ [] ∧ pat.isPrefixOf s = true then
        trimStartAux fuel pat (s.drop pat.length)
      else s

/-- `s.trim_end_matches(pat)`: all trailing occurrences of `pat`
repeatedly removed. -/
def trimEndMatches (s pat : String) : String :=
  ⟨(trimStartAux s.data.length pat.data.reverse s.data.reverse).reverse⟩

/-- Replace all non-overlapping occurrences of `patFrom`, scanning left
to right (at most `fuel` rounds).  The source only ever uses non-empty
patterns, and an empty `patFrom` here is a no-op. -/
def replaceAux : Nat → List Char → List Char → List Char → List Char
  | 0, _, _, s => s
  | fuel + 1, patFrom, patTo, s =>
      match s with
      | [] => []
      | c :: rest =>
          if patFrom ≠ [] ∧ patFrom.isPrefixOf (c :: rest) = true then
            patTo ++ replaceAux fuel patFrom patTo ((c :: rest).drop patFrom.length)
          else
            c :: replaceAux fuel patFrom patTo rest

/-- `s.replace(patFrom, patTo)` for the non-empty patterns the source
uses. -/
def strReplace (s patFrom patTo : String) : String :=
  ⟨replaceAux s.data.length patFrom.data patTo.data s.data⟩

/-! ## The jail map (`HashMap<String, Jail>`)

Modelled as an association list with unique keys: `hmInsert` overwrites
the value at an existing key (last write wins) and otherwise appends;
`hmModify` is `entry(k).and_modify(f)` (touches only an existing entry,
never inserts); `hmFind` is lookup.
-/

structure Jail where
  jail_ip : String
  admin_url : Option String
  icon_url : Option String
deriving DecidableEq, Repr

abbrev JailMap := List (String × Jail)

def hmInsert (k : String) (v : Jail) : JailMap → JailMap
  | [] => [(k, v)]
  | (k₀, v₀) :: rest =>
      if k₀ = k then (k, v) :: rest else (k₀, v₀) :: hmInsert k v rest

def hmModify (k : String) (f : Jail → Jail) : JailMap → JailMap
  | [] => []
  | (k₀, v₀) :: rest =>
      if k₀ = k then (k₀, f v₀) :: rest else (k₀, v₀) :: hmModify k f rest

def hmFind (k : String) : JailMap → Option Jail
  | [] => none
  | (k₀, v₀) :: rest => if k₀ = k then some v₀ else hmFind k rest

def hmKeys (m : JailMap) : List String := m.map Prod.fst

/-! ## The merge (`fn list`)

The two HTTP fetches and the JSON parses happen before the code modelled
here; `list` receives the two parsed documents.  The result is `none`
when the loop body panics: `admin_urls[0]` indexes a `Vec` and panics
(index out of bounds) whenever a plugin whose `admin_portals` is an
*empty* array matches an existing jail entry (the closure passed to
`and_modify` only runs for occupied entries).
-/

def ICON_FREEBSD : String := "/static/icons/beastie.png"

def entityId (jail_obj : JsonValue) : String :=
  jsonDisplay (jsonField jail_obj "id")

/-- One iteration of the first loop:
`jails.insert(jail_obj["id"].to_string(), Jail { jail_ip, None, None })`. -/
def seedStep (m : JailMap) (jail_obj : JsonValue) : JailMap :=
  hmInsert (entityId jail_obj)
    { jail_ip := jsonDisplay (jsonField jail_obj "ip4_addr")
      admin_url := none
      icon_url := none } m

def pluginName (plugin_obj : JsonValue) : String :=
  jsonDisplay (jsonField plugin_obj "name")

/-- The icon URL built inside the `and_modify` closure:
repository URL, `.git` suffixes trimmed, `github.com` rewritten to
`raw.githubusercontent.com`, then `/master/icons/<name>.png` with
`plexmediaserver` canonicalized to `plex` in the name. -/
def iconUrlOf (plugin_obj : JsonValue) (name : String) : String :=
  strReplace
      (trimEndMatches (jsonDisplay (jsonField plugin_obj "plugin_repository")) ".git")
      "github.com" "raw.githubusercontent.com"
    ++ "/master/icons/" ++ strReplace name "plexmediaserver" "plex" ++ ".png"

/-- One iteration of the second loop.  `admin_portals` must be a JSON
array for the match arm to fire; the `and_modify` closure runs only when
the jail entry exists, and then `admin_urls[0]` panics if the array is
empty. -/
def pluginStep (m : JailMap) (plugin_obj : JsonValue) : Option JailMap :=
  match jsonField plugin_obj "admin_portals" with
  | .arr admin_urls =>
      match hmFind (pluginName plugin_obj) m with
      | none => some m
      | some _ =>
          match admin_urls with
          | [] => none
          | u :: _ =>
              some (hmModify (pluginName plugin_obj) (fun jail =>
                { jail with
                    admin_url := some (jsonDisplay u)
                    icon_url := some (iconUrlOf plugin_obj (pluginName plugin_obj)) }) m)
  | _ => some m

/-- The third loop: give any jail still lacking an icon the default. -/
def finalizeJail (jail : Jail) : Jail :=
  if jail.icon_url = none then { jail with icon_url := some ICON_FREEBSD } else jail

/-- `fn list`, after the two fetches have been parsed into
`jailsDoc` / `pluginsDoc`: seed the map from the jail objects, run the
plugin loop (whose body may panic, giving `none`), then default the
missing icons.  `none` models a panic. -/
def list (jailsDoc pluginsDoc : JsonValue) : Option JailMap :=
  match (jsonMembers pluginsDoc).foldlM pluginStep
      ((jsonMembers jailsDoc).foldl seedStep []) with
  | none => none
  | some jails => some (jails.map (fun kv => (kv.1, finalizeJail kv.2)))

/-! ## The static asset route (`fn static_file`)

The handler looks the relative path up among the embedded assets
(`Static::get`), answers 404 when absent, then extracts the path's
extension (`Path::extension`), answers 400 when there is none, maps the
extension to a content type (`ContentType::from_extension`, a fixed
table owned by the external web framework), answers 400 when unknown,
and otherwise serves the asset's bytes under that content type.  The
embedded asset table and the extension→content-type table are data
external to the source file and are taken as parameters.
-/

inductive StaticResponse where
  | notFound
  | badRequest (reason : String)
  | ok (contentType : String) (body : List Nat)
deriving DecidableEq, Repr

/-- `Path::extension` of the final `/`-separated component: `none` when
there is no file name, no embedded `.`, or the only `.` is the leading
one of a hidden file; otherwise the portion after the final `.`. -/
def pathExtension (p : String) : Option String :=
  let f := (p.data.reverse.takeWhile (fun c => c ≠ '/')).reverse
  if f = [] ∨ f = ['.'] ∨ f = ['.', '.'] then none
  else
    let ext := f.reverse.takeWhile (fun c => c ≠ '.')
    if ext.length = f.length then none
    else if ext.length + 1 = f.length then none
    else some ⟨ext.reverse⟩

def static_file (getAsset : String → Option (List Nat))
    (fromExtension : String → Option String) (path : String) : StaticResponse :=
  match getAsset path with
  | none => .notFound
  | some d =>
      match pathExtension path with
      | none => .badRequest "Could not get file extension"
      | some ext =>
          match fromExtension ext with
          | none => .badRequest "Could not get file content type"
          | some contentType => .ok contentType d

def statusOf : StaticResponse → Nat
  | .notFound => 404
  | .badRequest _ => 400
  | .ok _ _ => 200

/-! ## The poller, the handlers and the shared `RwLock`

A small-step interleaving model of `main`'s concurrency structure.  One
poller thread runs `loop { let mut jails = lock.write().unwrap();
*jails = list(..); drop(jails); sleep(30s) }`; each request handler runs
`lock.read().unwrap()` and renders the map it sees.

Modelling choices, all taken from the source and from `std::sync::RwLock`:
  * the write guard is acquired *before* `list` runs, so the poller
    holds the write lock for the whole fetch/merge (`working`);
  * the assignment `*jails = ...` stores a fully computed map and the
    guard is dropped right after; no reader can run between the store
    and the drop (the write lock is held), so both are one step;
  * a panic inside `list` unwinds while the write guard is held, which
    drops the guard and *poisons* the lock; the poller thread dies;
  * `read()` on a poisoned lock returns `Err`, so the handler's
    `.unwrap()` panics and that reader observes nothing;
  * readers exclude the writer and vice versa; writer acquisition
    requires no active readers.

The outcome of cycle `k` is `cycleOutcome fetches k`: `none` when the
fetch or parse of cycle `k` fails (the `unwrap`s on `send`/`parse`) and
otherwise `list` applied to the two documents fetched in that cycle.
-/

inductive PollerState where
  | sleeping (k : Nat)
  | working (k : Nat)
  | dead
deriving DecidableEq, Repr

inductive ReaderState where
  | waiting
  | reading (seen : JailMap)
  | finished (seen : JailMap)
  | panicked
deriving DecidableEq, Repr

structure Sys where
  snap : JailMap
  poisoned : Bool
  writer : Bool
  poller : PollerState
  readers : List ReaderState
deriving DecidableEq, Repr

def readingCount (rs : List ReaderState) : Nat :=
  rs.countP (fun r => match r with | .reading _ => true | _ => false)

def cycleOutcome (fetches : Nat → Option (JsonValue × JsonValue)) (k : Nat) :
    Option JailMap :=
  match fetches k with
  | none => none
  | some (jailsDoc, pluginsDoc) => list jailsDoc pluginsDoc

inductive Label where
  | pollAcquire
  | pollPublish
  | pollPanic
  | readAcquire (i : Nat)
  | readRelease (i : Nat)
deriving DecidableEq, Repr

inductive Step (fetches : Nat → Option (JsonValue × JsonValue)) :
    Label → Sys → Sys → Prop where
  | pollAcquire (s : Sys) (k : Nat) :
      s.poller = .sleeping k → s.writer = false → s.poisoned = false →
      readingCount s.readers = 0 →
      Step fetches .pollAcquire s { s with poller := .working k, writer := true }
  | pollPublish (s : Sys) (k : Nat) (m : JailMap) :
      s.poller = .working k → cycleOutcome fetches k = some m →
      Step fetches .pollPublish s
        { s with snap := m, writer := false, poller := .sleeping (k + 1) }
  | pollPanic (s : Sys) (k : Nat) :
      s.poller = .working k → cycleOutcome fetches k = none →
      Step fetches .pollPanic s
        { s with writer := false, poisoned := true, poller := .dead }
  | readAcquire (s : Sys) (i : Nat) :
      s.readers.get? i = some .waiting → s.writer = false → s.poisoned = false →
      Step fetches (.readAcquire i) s
        { s with readers := s.readers.set i (.reading s.snap) }
  | readPoisoned (s : Sys) (i : Nat) :
      s.readers.get? i = some .waiting → s.writer = false → s.poisoned = true →
      Step fetches (.readAcquire i) s
        { s with readers := s.readers.set i .panicked }
  | readRelease (s : Sys) (i : Nat) (m : JailMap) :
      s.readers.get? i = some (.reading m) →
      Step fetches (.readRelease i) s
        { s with readers := s.readers.set i (.finished m) }

/-- The initial state: empty snapshot, lock free and healthy, poller
about to run cycle 0, `n` request handlers not yet arrived. -/
def initSys (n : Nat) : Sys :=
  { snap := []
    poisoned := false
    writer := false
    poller := .sleeping 0
    readers := List.replicate n .waiting }

def stepAny (fetches : Nat → Option (JsonValue × JsonValue)) (s t : Sys) : Prop :=
  ∃ l, Step fetches l s t

/-- Reachability from a state by interleaved poller/reader steps. -/
def ReachableFrom (fetches : Nat → Option (JsonValue × JsonValue)) (s t : Sys) :
    Prop :=
  Relation.ReflTransGen (stepAny fetches) s t

/-! ## Association-list map lemmas -/

theorem hmKeys_nil : hmKeys [] = [] := rfl

theorem hmKeys_cons (k : String) (v : Jail) (m : JailMap) :
    hmKeys ((k, v) :: m) = k :: hmKeys m := rfl

theorem mem_hmKeys_hmInsert (k : String) (v : Jail) (m : JailMap) (k₁ : String) :
    k₁ ∈ hmKeys (hmInsert k v m) ↔ k₁ = k ∨ k₁ ∈ hmKeys m := by
  induction m with
  | nil => simp [hmInsert, hmKeys]
  | cons hd tl ih =>
    obtain ⟨k₀, v₀⟩ := hd
    by_cases h : k₀ = k
    · subst h
      simp [hmInsert, hmKeys_cons]
    · simp only [hmInsert, if_neg h, hmKeys_cons, List.mem_cons, ih]
      tauto

theorem nodup_hmKeys_hmInsert (k : String) (v : Jail) (m : JailMap)
    (h : (hmKeys m).Nodup) : (hmKeys (hmInsert k v m)).Nodup := by
  induction m with
  | nil => simp [hmInsert, hmKeys]
  | cons hd tl ih =>
    obtain ⟨k₀, v₀⟩ := hd
    rw [hmKeys_cons, List.nodup_cons] at h
    by_cases hk : k₀ = k
    · subst hk
      simpa [hmInsert, hmKeys_cons] using h
    · rw [hmInsert, if_neg hk, hmKeys_cons, List.nodup_cons]
      refine ⟨fun hmem => ?_, ih h.2⟩
      rcases (mem_hmKeys_hmInsert k v tl k₀).1 hmem with h₁ | h₁
      · exact hk h₁
      · exact h.1 h₁

theorem hmKeys_hmModify (k : String) (f : Jail → Jail) (m : JailMap) :
    hmKeys (hmModify k f m) = hmKeys m := by
  induction m with
  | nil => rfl
  | cons hd tl ih =>
    obtain ⟨k₀, v₀⟩ := hd
    by_cases h : k₀ = k <;> simp [hmModify, h, hmKeys_cons, ih]

theorem hmFind_eq_none_iff (k : String) (m : JailMap) :
    hmFind k m = none ↔ k ∉ hmKeys m := by
  induction m with
  | nil => simp [hmFind, hmKeys]
  | cons hd tl ih =>
    obtain ⟨k₀, v₀⟩ := hd
    by_cases h : k₀ = k
    · subst h; simp [hmFind, hmKeys_cons]
    · rw [show hmFind k ((k₀, v₀) :: tl) = hmFind k tl from by simp [hmFind, h], ih,
        hmKeys_cons]
      constructor
      · intro hn hmem
        rcases List.mem_cons.1 hmem with h₁ | h₁
        · exact h h₁.symm
        · exact hn h₁
      · intro hn hmem
        exact hn (List.mem_cons_of_mem _ hmem)

theorem hmFind_hmModify_self (k : String) (f : Jail → Jail) (m : JailMap) :
    hmFind k (hmModify k f m) = (hmFind k m).map f := by
  induction m with
  | nil => rfl
  | cons hd tl ih =>
    obtain ⟨k₀, v₀⟩ := hd
    by_cases h : k₀ = k <;> simp [hmModify, hmFind, h, ih]

theorem hmFind_hmModify_ne (k k₁ : String) (f : Jail → Jail) (m : JailMap)
    (h : k₁ ≠ k) : hmFind k₁ (hmModify k f m) = hmFind k₁ m := by
  induction m with
  | nil => rfl
  | cons hd tl ih =>
    obtain ⟨k₀, v₀⟩ := hd
    by_cases h₀ : k₀ = k
    · have h₁ : ¬k₀ = k₁ := fun hc => h (hc ▸ h₀)
      have h₂ : ¬k = k₁ := fun hc => h hc.symm
      simp [hmModify, hmFind, h₀, h₁, h₂]
    · by_cases h₁ : k₀ = k₁ <;> simp [hmModify, hmFind, h₀, h₁, h, ih]

theorem hmFind_mapVals (g : Jail → Jail) (k : String) (m : JailMap) :
    hmFind k (m.map (fun kv => (kv.1, g kv.2))) = (hmFind k m).map g := by
  induction m with
  | nil => rfl
  | cons hd tl ih =>
    obtain ⟨k₀, v₀⟩ := hd
    by_cases h : k₀ = k <;> simp [hmFind, h, ih]

theorem hmKeys_mapVals (g : Jail → Jail) (m : JailMap) :
    hmKeys (m.map (fun kv => (kv.1, g kv.2))) = hmKeys m := by
  induction m with
  | nil => rfl
  | cons hd tl ih =>
    simp only [List.map_cons, hmKeys, List.map_map] at ih ⊢
    simp [ih]

/-! ## Lemmas about the seeding loop -/

theorem mem_hmKeys_seedFold (E : List JsonValue) :
    ∀ (m₀ : JailMap) (k : String),
      k ∈ hmKeys (E.foldl seedStep m₀) ↔ k ∈ hmKeys m₀ ∨ k ∈ E.map entityId := by
  induction E with
  | nil => simp
  | cons e E ih =>
    intro m₀ k
    rw [List.foldl_cons, ih]
    simp only [seedStep, mem_hmKeys_hmInsert, List.map_cons, List.mem_cons]
    tauto

theorem nodup_hmKeys_seedFold (E : List JsonValue) :
    ∀ (m₀ : JailMap), (hmKeys m₀).Nodup → (hmKeys (E.foldl seedStep m₀)).Nodup := by
  induction E with
  | nil => exact fun _ h => h
  | cons e E ih =>
    intro m₀ h
    exact ih _ (nodup_hmKeys_hmInsert _ _ _ h)

/-! ## Lemmas about the plugin loop -/

theorem pluginStep_keys (m m₁ : JailMap) (p : JsonValue)
    (h : pluginStep m p = some m₁) : hmKeys m₁ = hmKeys m := by
  unfold pluginStep at h
  split at h
  · split at h
    · cases h; rfl
    · split at h
      · cases h
      · cases h
        exact hmKeys_hmModify _ _ _
  · cases h; rfl

theorem pluginFold_keys (P : List JsonValue) :
    ∀ (m m₁ : JailMap), P.foldlM pluginStep m = some m₁ → hmKeys m₁ = hmKeys m := by
  induction P with
  | nil =>
    intro m m₁ h
    cases h
    rfl
  | cons p P ih =>
    intro m m₁ h
    rw [List.foldlM_cons] at h
    rcases hstep : pluginStep m p with _ | m₂ <;> rw [hstep] at h
    · cases h
    · rw [ih _ _ h, pluginStep_keys _ _ _ hstep]

theorem pluginStep_find_ne (m m₁ : JailMap) (p : JsonValue) (X : String)
    (hname : pluginName p ≠ X) (h : pluginStep m p = some m₁) :
    hmFind X m₁ = hmFind X m := by
  unfold pluginStep at h
  split at h
  · split at h
    · cases h; rfl
    · split at h
      · cases h
      · cases h
        exact hmFind_hmModify_ne _ _ _ _ (Ne.symm hname)
  · cases h; rfl

theorem pluginFold_find_ne (X : String) (P : List JsonValue)
    (hnames : ∀ q ∈ P, pluginName q ≠ X) :
    ∀ (m m₁ : JailMap), P.foldlM pluginStep m = some m₁ → hmFind X m₁ = hmFind X m := by
  induction P with
  | nil =>
    intro m m₁ h
    cases h
    rfl
  | cons p P ih =>
    intro m m₁ h
    rw [List.foldlM_cons] at h
    rcases hstep : pluginStep m p with _ | m₂ <;> rw [hstep] at h
    · cases h
    · rw [ih (fun q hq => hnames q (List.mem_cons_of_mem _ hq)) _ _ h,
        pluginStep_find_ne _ _ _ _ (hnames p (List.mem_cons_self _ _)) hstep]

/-! ## Lemmas about the finalizing loop -/

theorem finalizeJail_admin_url (j : Jail) :
    (finalizeJail j).admin_url = j.admin_url := by
  unfold finalizeJail
  by_cases h : j.icon_url = none <;> simp [h]

theorem finalizeJail_icon_isSome (j : Jail) : (finalizeJail j).icon_url.isSome := by
  unfold finalizeJail
  rcases h : j.icon_url with _ | u <;> simp [h]

/-! ## Snapshot invariants of the concurrent system -/

/-- A map a reader may legitimately observe: the initial empty snapshot
or the complete outcome of one successful poll cycle. -/
def goodMap (fetches : Nat → Option (JsonValue × JsonValue)) (m : JailMap) : Prop :=
  m = [] ∨ ∃ k, cycleOutcome fetches k = some m

def readerOk (fetches : Nat → Option (JsonValue × JsonValue)) : ReaderState → Prop
  | .reading m => goodMap fetches m
  | .finished m => goodMap fetches m
  | _ => True

/-- The snapshot, and everything any reader has observed, is a complete
single-cycle map. -/
def SnapInv (fetches : Nat → Option (JsonValue × JsonValue)) (s : Sys) : Prop :=
  goodMap fetches s.snap ∧ ∀ r ∈ s.readers, readerOk fetches r

theorem snapInv_init (fetches : Nat → Option (JsonValue × JsonValue)) (n : Nat) :
    SnapInv fetches (initSys n) := by
  constructor
  · exact Or.inl rfl
  · intro r hr
    simp only [initSys] at hr
    rw [List.mem_replicate] at hr
    rw [hr.2]
    trivial

theorem snapInv_step (fetches : Nat → Option (JsonValue × JsonValue))
    (l : Label) (s t : Sys) (hstep : Step fetches l s t) (hinv : SnapInv fetches s) :
    SnapInv fetches t := by
  obtain ⟨hsnap, hreaders⟩ := hinv
  cases hstep with
  | pollAcquire s k h₁ h₂ h₃ h₄ => exact ⟨hsnap, hreaders⟩
  | pollPublish s k m h₁ h₂ => exact ⟨Or.inr ⟨k, h₂⟩, hreaders⟩
  | pollPanic s k h₁ h₂ => exact ⟨hsnap, hreaders⟩
  | readAcquire s i h₁ h₂ h₃ =>
    refine ⟨hsnap, fun r hr => ?_⟩
    rcases List.mem_or_eq_of_mem_set hr with h₄ | h₄
    · exact hreaders r h₄
    · rw [h₄]; exact hsnap
  | readPoisoned s i h₁ h₂ h₃ =>
    refine ⟨hsnap, fun r hr => ?_⟩
    rcases List.mem_or_eq_of_mem_set hr with h₄ | h₄
    · exact hreaders r h₄
    · rw [h₄]; trivial
  | readRelease s i m h₁ =>
    refine ⟨hsnap, fun r hr => ?_⟩
    rcases List.mem_or_eq_of_mem_set hr with h₄ | h₄
    · exact hreaders r h₄
    · rw [h₄]
      exact hreaders (.reading m) (List.get?_mem h₁)

theorem snapInv_reachable (fetches : Nat → Option (JsonValue × JsonValue))
    (s t : Sys) (h : ReachableFrom fetches s t) (hinv : SnapInv fetches s) :
    SnapInv fetches t := by
  induction h with
  | refl => exact hinv
  | tail h₁ h₂ ih =>
    obtain ⟨l, hstep⟩ := h₂
    exact snapInv_step _ _ _ _ hstep ih

/-- Once the poller has died with the lock poisoned, the system stays
that way and no reader ever again holds the read lock with a snapshot. -/
def DeadInv (s : Sys) : Prop :=
  s.poller = .dead ∧ s.poisoned = true ∧
    ∀ r ∈ s.readers, r = .waiting ∨ r = .panicked

theorem deadInv_step (fetches : Nat → Option (JsonValue × JsonValue))
    (l : Label) (s t : Sys) (hstep : Step fetches l s t) (hinv : DeadInv s) :
    DeadInv t := by
  obtain ⟨hdead, hpois, hreaders⟩ := hinv
  cases hstep with
  | pollAcquire s k h₁ h₂ h₃ h₄ => rw [hpois] at h₃; cases h₃
  | pollPublish s k m h₁ h₂ => rw [hdead] at h₁; cases h₁
  | pollPanic s k h₁ h₂ => rw [hdead] at h₁; cases h₁
  | readAcquire s i h₁ h₂ h₃ => rw [hpois] at h₃; cases h₃
  | readPoisoned s i h₁ h₂ h₃ =>
    refine ⟨hdead, hpois, fun r hr => ?_⟩
    rcases List.mem_or_eq_of_mem_set hr with h₄ | h₄
    · exact hreaders r h₄
    · exact Or.inr h₄
  | readRelease s i m h₁ =>
    rcases hreaders _ (List.get?_mem h₁) with h₄ | h₄ <;> cases h₄

theorem deadInv_reachable (fetches : Nat → Option (JsonValue × JsonValue))
    (s t : Sys) (h : ReachableFrom fetches s t) (hinv : DeadInv s) : DeadInv t := by
  induction h with
  | refl => exact hinv
  | tail h₁ h₂ ih =>
    obtain ⟨l, hstep⟩ := h₂
    exact deadInv_step _ _ _ _ hstep ih

/-! ## Lemmas about the string transforms -/

theorem trimStartAux_congr (pat : List Char) :
    ∀ (f₁ : Nat), ∀ (f₂ : Nat) (s : List Char), s.length ≤ f₁ → s.length ≤ f₂ →
      trimStartAux f₁ pat s = trimStartAux f₂ pat s := by
  intro f₁
  induction f₁ with
  | zero =>
    intro f₂ s h₁ h₂
    have hs : s = [] := List.eq_nil_of_length_eq_zero (Nat.le_zero.1 h₁)
    subst hs
    cases f₂ with
    | zero => rfl
    | succ f₂ =>
      rcases pat with _ | ⟨c, cs⟩
      · simp [trimStartAux]
      · simp [trimStartAux, List.isPrefixOf]
  | succ f₁ ih =>
    intro f₂ s h₁ h₂
    cases f₂ with
    | zero =>
      have hs : s = [] := List.eq_nil_of_length_eq_zero (Nat.le_zero.1 h₂)
      subst hs
      rcases pat with _ | ⟨c, cs⟩
      · simp [trimStartAux]
      · simp [trimStartAux, List.isPrefixOf]
    | succ f₂ =>
      by_cases hcond : pat ≠ [] ∧ pat.isPrefixOf s = true
      · rw [trimStartAux, trimStartAux, if_pos hcond, if_pos hcond]
        have hlen : pat.length ≤ s.length :=
          (List.isPrefixOf_iff_prefix.1 hcond.2).length_le
        have hpos : 0 < pat.length := List.length_pos.2 hcond.1
        have hdrop : (s.drop pat.length).length ≤ s.length - 1 := by
          rw [List.length_drop]
          omega
        exact ih f₂ _ (by omega) (by omega)
      · rw [trimStartAux, trimStartAux, if_neg hcond, if_neg hcond]

/-- Appending one copy of the (non-empty) pattern in front does not
change the result of stripping all leading copies. -/
theorem trimStartAux_cancel (pat s : List Char) (hpat : pat ≠ []) :
    trimStartAux (pat ++ s).length pat (pat ++ s) = trimStartAux s.length pat s := by
  have hpos : 0 < pat.length := List.length_pos.2 hpat
  have hlen : (pat ++ s).length = pat.length + s.length := by
    simp [List.length_append]
  rcases hfuel : (pat ++ s).length with _ | f
  · omega
  · rw [trimStartAux, if_pos ⟨hpat, List.isPrefixOf_iff_prefix.2 (List.prefix_append pat s)⟩,
      List.drop_left]
    exact trimStartAux_congr pat f s.length s (by omega) (le_refl _)

/-- `trim_end_matches(pat)` removes every trailing `pat`: appending one
more copy of the (non-empty) pattern to the input leaves the result
unchanged. -/
theorem trimEndMatches_append (s pat : String) (hpat : pat.data ≠ []) :
    trimEndMatches (s ++ pat) pat = trimEndMatches s pat := by
  unfold trimEndMatches
  have hdata : (s ++ pat).data = s.data ++ pat.data := by
    cases s
    cases pat
    rfl
  rw [hdata, List.reverse_append]
  have hlen : (s.data ++ pat.data).length
      = (pat.data.reverse ++ s.data.reverse).length := by
    simp [Nat.add_comm]
  rw [hlen, trimStartAux_cancel pat.data.reverse s.data.reverse (by simpa using hpat)]
  have hlen₂ : s.data.reverse.length = s.data.length := by simp
  rw [hlen₂]

/-- `pluginStep` on a matching plugin with a non-empty portal array is
exactly the `and_modify` update. -/
theorem pluginStep_modify (m : JailMap) (p : JsonValue) (u : JsonValue)
    (us : List JsonValue) (j : Jail)
    (hport : jsonField p "admin_portals" = .arr (u :: us))
    (hfind : hmFind (pluginName p) m = some j) :
    pluginStep m p = some (hmModify (pluginName p) (fun jail =>
      { jail with
          admin_url := some (jsonDisplay u)
          icon_url := some (iconUrlOf p (pluginName p)) }) m) := by
  unfold pluginStep
  rw [hport, hfind]

/-- Unpacking the body of `list` into its three phases. -/
theorem list_eq_phases (jailsDoc pluginsDoc : JsonValue) (m : JailMap) :
    list jailsDoc pluginsDoc = some m ↔
      ∃ m₁, (jsonMembers pluginsDoc).foldlM pluginStep
          ((jsonMembers jailsDoc).foldl seedStep []) = some m₁ ∧
        m = m₁.map (fun kv => (kv.1, finalizeJail kv.2)) := by
  unfold list
  rcases hfold : (jsonMembers pluginsDoc).foldlM pluginStep
      ((jsonMembers jailsDoc).foldl seedStep []) with _ | m₁
  · simp
  · constructor
    · intro h
      exact ⟨m₁, rfl, (Option.some.inj h).symm⟩
    · rintro ⟨m₂, hm₂, hm⟩
      cases hm₂
      rw [hm]

/-! ## Shared concrete scenarios for the concurrency claims -/

/-- Every cycle's fetch succeeds with two empty collections. -/
def fetchesOk : Nat → Option (JsonValue × JsonValue) := fun _ => some (.arr [], .arr [])

/-- Every cycle's fetch fails (network error or malformed body). -/
def fetchesFail : Nat → Option (JsonValue × JsonValue) := fun _ => none

/-- The poller has acquired the write lock and is fetching/merging. -/
def sysWorking : Sys := { initSys 1 with poller := .working 0, writer := true }

/-- The poller has panicked during cycle 0: thread dead, lock poisoned. -/
def sysDead : Sys := { sysWorking with writer := false, poisoned := true, poller := .dead }

/-! ## The claims -/

/-- C1 as stated by the spec: for *every* entity list `E` and plugin
list `P`, the merge yields a map whose keys are exactly the distinct
entity ids of `E`. -/
def mergeYieldsPerId (E P : List JsonValue) : Prop :=
  ∃ m, list (.arr E) (.arr P) = some m ∧ (hmKeys m).Nodup ∧
    ∀ k, k ∈ hmKeys m ↔ k ∈ E.map entityId

def entC1 : JsonValue := .obj [("id", .str "x"), ("ip4_addr", .str "10.0.0.1")]

def plugC1 : JsonValue :=
  .obj [("name", .str "x"), ("admin_portals", .arr []),
    ("plugin_repository", .str "r")]

/-- C1 (counterexample): on the entity `x` and a plugin named `x` whose
`admin_portals` is the empty array, the merge yields no map at all (the
loop body panics on `admin_urls[0]`), so there is no record for the id
`x` ∈ E. -/
theorem C1_counterexample : ¬ mergeYieldsPerId [entC1] [plugC1] := by
  rintro ⟨m, hm, -, -⟩
  rw [show list (.arr [entC1]) (.arr [plugC1]) = none from rfl] at hm
  cases hm

/-- C1 (amended): whenever the merge completes without panicking, it
yields exactly one ViewRecord per distinct entity id appearing in `E`
and no record keyed by an id outside `E`; plugins never cause a new
entry to be created. -/
theorem C1_merge_keys (E P : List JsonValue) (m : JailMap)
    (h : list (.arr E) (.arr P) = some m) :
    (hmKeys m).Nodup ∧ ∀ k, k ∈ hmKeys m ↔ k ∈ E.map entityId := by
  obtain ⟨m₁, hfold, hm⟩ := (list_eq_phases _ _ _).1 h
  simp only [jsonMembers] at hfold
  have hkeys : hmKeys m = hmKeys (E.foldl seedStep []) := by
    rw [hm, hmKeys_mapVals, pluginFold_keys P _ _ hfold]
  constructor
  · rw [hkeys]
    exact nodup_hmKeys_seedFold E [] (by simp [hmKeys])
  · intro k
    rw [hkeys, mem_hmKeys_seedFold E [] k]
    simp [hmKeys]

def entC1w : JsonValue := .obj [("id", .str "plex"), ("ip4_addr", .str "10.0.0.5")]

/-- Witness for `C1_merge_keys` at a concrete completed merge. -/
theorem C1_merge_keys_witness :
    (hmKeys [("plex", (⟨"10.0.0.5", none, some ICON_FREEBSD⟩ : Jail))]).Nodup ∧
      ∀ k, k ∈ hmKeys [("plex", (⟨"10.0.0.5", none, some ICON_FREEBSD⟩ : Jail))] ↔
        k ∈ [entC1w].map entityId :=
  C1_merge_keys [entC1w] [] _ rfl

/-- C5: every ViewRecord present in a completed merge result has a
non-absent `icon_url` (either derived from a plugin or the default
FreeBSD icon supplied by the final loop). -/
theorem C5_icon_always_present (E P : List JsonValue) (m : JailMap)
    (h : list (.arr E) (.arr P) = some m) :
    ∀ kv ∈ m, kv.2.icon_url.isSome := by
  obtain ⟨m₁, hfold, hm⟩ := (list_eq_phases _ _ _).1 h
  intro kv hkv
  rw [hm] at hkv
  obtain ⟨kv₁, hkv₁, hkv₂⟩ := List.mem_map.1 hkv
  rw [← hkv₂]
  exact finalizeJail_icon_isSome kv₁.2

/-- Witness for `C5_icon_always_present` at a concrete completed merge
and a concrete record of its result. -/
theorem C5_icon_witness :
    (("plex", (⟨"10.0.0.5", none, some ICON_FREEBSD⟩ : Jail))).2.icon_url.isSome :=
  C5_icon_always_present [.obj [("id", .str "plex"), ("ip4_addr", .str "10.0.0.5")]]
    [] _ rfl ("plex", ⟨"10.0.0.5", none, some ICON_FREEBSD⟩) (by decide)

/-- C6 as stated by the spec: whenever *some* plugin `p ∈ P` matches an
entity id and has a non-empty admin-portal array, the merged record
carries the first URL of `p`'s list — regardless of the other plugins. -/
def adminFirstProp : Prop :=
  ∀ (E P : List JsonValue) (p : JsonValue) (m : JailMap) (u : JsonValue)
    (us : List JsonValue),
    p ∈ P → jsonField p "admin_portals" = .arr (u :: us) →
    pluginName p ∈ E.map entityId →
    list (.arr E) (.arr P) = some m →
    ∃ j, hmFind (pluginName p) m = some j ∧ j.admin_url = some (jsonDisplay u)

def entC6 : JsonValue := .obj [("id", .str "x"), ("ip4_addr", .str "10.0.0.1")]

def plugC6a : JsonValue :=
  .obj [("name", .str "x"), ("admin_portals", .arr [.str "http://a"]),
    ("plugin_repository", .str "r")]

def plugC6b : JsonValue :=
  .obj [("name", .str "x"), ("admin_portals", .arr [.str "http://b"]),
    ("plugin_repository", .str "r")]

/-- C6 (counterexample): with two plugins both named `x`, the later one
overwrites `admin_url`, so the record does not carry the first URL of
the *earlier* matching plugin: the claim is order-dependent after all. -/
theorem C6_counterexample : ¬ adminFirstProp := by
  intro h
  obtain ⟨j, hj, hadmin⟩ := h [entC6] [plugC6a, plugC6b] plugC6a
    [("x", ⟨"10.0.0.1", some "http://b",
      some "r/master/icons/x.png"⟩)]
    (.str "http://a") [] (by simp) rfl (by decide) (by decide)
  rw [show hmFind (pluginName plugC6a)
      [("x", (⟨"10.0.0.1", some "http://b",
        some "r/master/icons/x.png"⟩ : Jail))]
      = some ⟨"10.0.0.1", some "http://b",
        some "r/master/icons/x.png"⟩ from rfl] at hj
  cases hj
  exact absurd hadmin (by decide)

/-- C6 (amended): if `p` is the only plugin of the list carrying its
name, `p`'s name matches an entity id, and `p`'s admin-portal array is
non-empty, then the completed merge's record for that name carries the
first URL of `p`'s list, wherever `p` sits among the other plugins. -/
theorem C6_admin_first (E P₁ P₂ : List JsonValue) (p : JsonValue) (m : JailMap)
    (u : JsonValue) (us : List JsonValue)
    (hport : jsonField p "admin_portals" = .arr (u :: us))
    (hothers : ∀ q ∈ P₁ ++ P₂, pluginName q ≠ pluginName p)
    (hmem : pluginName p ∈ E.map entityId)
    (h : list (.arr E) (.arr (P₁ ++ p :: P₂)) = some m) :
    ∃ j, hmFind (pluginName p) m = some j ∧ j.admin_url = some (jsonDisplay u) := by
  obtain ⟨m₂, hfold, hm⟩ := (list_eq_phases _ _ _).1 h
  simp only [jsonMembers] at hfold
  rw [List.foldlM_append] at hfold
  rcases h₁ : List.foldlM pluginStep (E.foldl seedStep []) P₁ with _ | s₁
  · rw [h₁] at hfold
    cases hfold
  · rw [h₁] at hfold
    rw [show ((some s₁ >>= fun s => List.foldlM pluginStep s (p :: P₂))
        = List.foldlM pluginStep s₁ (p :: P₂)) from rfl] at hfold
    have hseed : ∃ j₀, hmFind (pluginName p) (E.foldl seedStep []) = some j₀ := by
      rcases hfind : hmFind (pluginName p) (E.foldl seedStep []) with _ | j₀
      · rw [hmFind_eq_none_iff] at hfind
        exact absurd ((mem_hmKeys_seedFold E [] (pluginName p)).2 (Or.inr hmem)) hfind
      · exact ⟨j₀, rfl⟩
    obtain ⟨j₀, hj₀⟩ := hseed
    have hfindS₁ : hmFind (pluginName p) s₁ = some j₀ := by
      rw [pluginFold_find_ne (pluginName p) P₁
        (fun q hq => hothers q (List.mem_append_left _ hq)) _ _ h₁, hj₀]
    rw [List.foldlM_cons, pluginStep_modify s₁ p u us j₀ hport hfindS₁] at hfold
    rw [show ((some (hmModify (pluginName p) (fun jail =>
        { jail with
            admin_url := some (jsonDisplay u)
            icon_url := some (iconUrlOf p (pluginName p)) }) s₁)
          >>= fun s => List.foldlM pluginStep s P₂)
        = List.foldlM pluginStep (hmModify (pluginName p) (fun jail =>
            { jail with
                admin_url := some (jsonDisplay u)
                icon_url := some (iconUrlOf p (pluginName p)) }) s₁) P₂) from rfl]
      at hfold
    have hfindM₂ : hmFind (pluginName p) m₂ = some { j₀ with
        admin_url := some (jsonDisplay u)
        icon_url := some (iconUrlOf p (pluginName p)) } := by
      rw [pluginFold_find_ne (pluginName p) P₂
        (fun q hq => hothers q (List.mem_append_right _ hq)) _ _ hfold,
        hmFind_hmModify_self, hfindS₁]
      rfl
    refine ⟨finalizeJail { j₀ with
        admin_url := some (jsonDisplay u)
        icon_url := some (iconUrlOf p (pluginName p)) }, ?_, ?_⟩
    · rw [hm, hmFind_mapVals, hfindM₂]
      rfl
    · rw [finalizeJail_admin_url]

/-- Witness for `C6_admin_first` on a singleton plugin list. -/
theorem C6_admin_first_witness :
    ∃ j, hmFind (pluginName plugC6a)
        [("x", (⟨"10.0.0.1", some "http://a",
          some "r/master/icons/x.png"⟩ : Jail))]
        = some j ∧ j.admin_url = some (jsonDisplay (.str "http://a")) :=
  C6_admin_first [entC6] [] [] plugC6a _ (.str "http://a") [] rfl
    (by simp) (by decide) rfl

def entC7 : JsonValue := .obj [("id", .str "x"), ("ip4_addr", .str "10.0.0.1")]

def plugC7 : JsonValue :=
  .obj [("name", .str "x"), ("admin_portals", .arr []),
    ("plugin_repository", .str "https://github.com/o/r.git")]

/-- C7: the code does **not** ignore a plugin whose admin-portal list is
empty.  When such a plugin matches an entity, `admin_urls[0]` (a `Vec`
index) panics, so the merge produces no map at all — whereas ignoring
the plugin (what the spec asks) would have produced the seeded record
with the default icon, as the second conjunct shows for the same entity
with the plugin removed. -/
theorem C7_empty_portals_panic :
    list (.arr [entC7]) (.arr [plugC7]) = none ∧
    list (.arr [entC7]) (.arr [])
      = some [("x", ⟨"10.0.0.1", none, some ICON_FREEBSD⟩)] := by
  exact ⟨rfl, rfl⟩

def entC8 : JsonValue := .obj [("id", .str "plex"), ("ip4_addr", .str "10.0.0.5")]

def plugC8 : JsonValue :=
  .obj [("name", .str "plexmediaserver"),
    ("admin_portals", .arr [.str "http://10.0.0.5:32400"]),
    ("plugin_repository", .str "https://github.com/org/plex.git")]

/-- C8 (counterexample): on the spec's scenario input, the plugin's name
`plexmediaserver` does not equal the entity id `plex`, so
`entry(name).and_modify` is a no-op: the merge returns the seeded record
with the default icon, not the claimed admin/icon URLs. -/
theorem C8_counterexample :
    list (.arr [entC8]) (.arr [plugC8])
        = some [("plex", ⟨"10.0.0.5", none, some "/static/icons/beastie.png"⟩)] ∧
      list (.arr [entC8]) (.arr [plugC8])
        ≠ some [("plex", ⟨"10.0.0.5", some "http://10.0.0.5:32400",
            some "https://raw.githubusercontent.com/org/plex/master/icons/plex.png"⟩)] := by
  constructor
  · rfl
  · decide

/-- C8 (amended): the scenario holds once the entity id equals the
plugin name: with entity `plexmediaserver` at `10.0.0.5` and the same
plugin, the merge yields the first admin portal as `admin_url` and the
icon URL obtained by stripping `.git`, rewriting `github.com` to
`raw.githubusercontent.com` and appending
`/master/icons/plex.png` (with `plexmediaserver` canonicalized to
`plex`). -/
theorem C8_scenario :
    list (.arr [.obj [("id", .str "plexmediaserver"), ("ip4_addr", .str "10.0.0.5")]])
        (.arr [plugC8])
      = some [("plexmediaserver", ⟨"10.0.0.5", some "http://10.0.0.5:32400",
          some "https://raw.githubusercontent.com/org/plex/master/icons/plex.png"⟩)] := by
  decide

/-- C9: the static route serves 404 when the embedded asset is absent,
400 when the asset exists but the path has no extension or the extension
maps to no known content type, and otherwise the asset body under the
content type derived from the extension. -/
theorem C9_static_dispatch (getAsset : String → Option (List Nat))
    (fromExtension : String → Option String) (path : String) :
    (getAsset path = none → statusOf (static_file getAsset fromExtension path) = 404) ∧
    (∀ d, getAsset path = some d → pathExtension path = none →
      statusOf (static_file getAsset fromExtension path) = 400) ∧
    (∀ d ext, getAsset path = some d → pathExtension path = some ext →
      fromExtension ext = none →
      statusOf (static_file getAsset fromExtension path) = 400) ∧
    (∀ d ext ct, getAsset path = some d → pathExtension path = some ext →
      fromExtension ext = some ct →
      static_file getAsset fromExtension path = .ok ct d) := by
  refine ⟨?_, ?_, ?_, ?_⟩
  · intro h
    simp [static_file, h, statusOf]
  · intro d h₁ h₂
    simp [static_file, h₁, h₂, statusOf]
  · intro d ext h₁ h₂ h₃
    simp [static_file, h₁, h₂, h₃, statusOf]
  · intro d ext ct h₁ h₂ h₃
    simp [static_file, h₁, h₂, h₃]

def assetsW : String → Option (List Nat) :=
  fun s => if s = "icons/beastie.png" then some [137, 80, 78, 71] else none

def contentTypesW : String → Option String :=
  fun e => if e = "png" then some "image/png" else none

/-- Witness for `C9_static_dispatch`: the embedded beastie icon is
served as `image/png`. -/
theorem C9_static_dispatch_witness :
    static_file assetsW contentTypesW "icons/beastie.png"
      = .ok "image/png" [137, 80, 78, 71] :=
  (C9_static_dispatch assetsW contentTypesW "icons/beastie.png").2.2.2
    [137, 80, 78, 71] "png" "image/png" rfl rfl rfl

def plugC10 : JsonValue :=
  .obj [("plugin_repository", .str "https://github.com/o/github.com.git.git")]

/-- C10: `trim_end_matches(".git")` removes *every* consecutive trailing
`".git"` (appending `".git.git"` changes nothing), and `replace`
rewrites *every* occurrence of `github.com` — also inside the path, as
the icon derivation on a repository URL containing `github.com` twice
and ending in `".git.git"` shows. -/
theorem C10_trim_and_replace_all :
    (∀ s : String, trimEndMatches (s ++ ".git.git") ".git" = trimEndMatches s ".git") ∧
    strReplace "https://github.com/a/github.com/b" "github.com"
        "raw.githubusercontent.com"
      = "https://raw.githubusercontent.com/a/raw.githubusercontent.com/b" ∧
    iconUrlOf plugC10 "n"
      = "https://raw.githubusercontent.com/o/raw.githubusercontent.com/master/icons/n.png" := by
  refine ⟨fun s => ?_, by decide, by decide⟩
  have h : s ++ ".git.git" = (s ++ ".git") ++ ".git" := by
    rw [String.append_assoc]
    rfl
  rw [h, trimEndMatches_append _ _ (by decide), trimEndMatches_append _ _ (by decide)]

/-- C2: a replace of the snapshot is atomic with respect to concurrent
reads: any map a reader holds or has returned in any reachable state is
the initial empty snapshot or the complete outcome of one successful
poll cycle — never a mixture of records from two cycles. -/
theorem C2_atomic_snapshot (fetches : Nat → Option (JsonValue × JsonValue))
    (n : Nat) (s : Sys) (h : ReachableFrom fetches (initSys n) s)
    (r : ReaderState) (hr : r ∈ s.readers) (m : JailMap)
    (hm : r = .reading m ∨ r = .finished m) :
    m = [] ∨ ∃ k, cycleOutcome fetches k = some m := by
  have hinv := snapInv_reachable fetches _ _ h (snapInv_init fetches n)
  rcases hm with hm | hm <;> rw [hm] at hr
  · exact hinv.2 _ hr
  · exact hinv.2 _ hr

/-- Cycle 0 has published (the empty collections), the lock is free. -/
def sysPublished : Sys :=
  { sysWorking with snap := [], writer := false, poller := .sleeping 1 }

/-- Reader 0 holds the read lock over the published snapshot. -/
def sysReading : Sys :=
  { sysPublished with readers := sysPublished.readers.set 0 (.reading sysPublished.snap) }

/-- Reader 0 has returned its response. -/
def sysFinished : Sys :=
  { sysReading with readers := sysReading.readers.set 0 (.finished []) }

/-- Witness for `C2_atomic_snapshot` along a concrete four-step trace. -/
theorem C2_atomic_snapshot_witness :
    ([] : JailMap) = [] ∨ ∃ k, cycleOutcome fetchesOk k = some [] := by
  have h0 : ReachableFrom fetchesOk (initSys 1) sysWorking :=
    Relation.ReflTransGen.refl.tail
      ⟨.pollAcquire, Step.pollAcquire (initSys 1) 0 rfl rfl rfl rfl⟩
  have h1 : ReachableFrom fetchesOk (initSys 1) sysPublished :=
    h0.tail ⟨.pollPublish, Step.pollPublish sysWorking 0 [] rfl rfl⟩
  have h2 : ReachableFrom fetchesOk (initSys 1) sysReading :=
    h1.tail ⟨.readAcquire 0, Step.readAcquire sysPublished 0 rfl rfl rfl⟩
  have h3 : ReachableFrom fetchesOk (initSys 1) sysFinished :=
    h2.tail ⟨.readRelease 0, Step.readRelease sysReading 0 [] rfl⟩
  exact C2_atomic_snapshot fetchesOk 1 sysFinished h3 (.finished []) (by decide) []
    (Or.inr rfl)

/-- C3: on a cycle whose fetch fails, the code does not skip the cycle
and retry: the `unwrap` panics while the poller holds the write guard,
so the poller thread dies and the lock is poisoned — permanently.  From
the panicked state every future state still has a dead poller and a
poisoned lock, and no reader ever again holds the read lock over a
snapshot (their `read().unwrap()` panics instead). -/
theorem C3_fetch_failure_kills_poller :
    ReachableFrom fetchesFail (initSys 1) sysDead ∧
    ∀ t, ReachableFrom fetchesFail sysDead t →
      t.poller = .dead ∧ t.poisoned = true ∧
        ∀ i m, t.readers.get? i ≠ some (.reading m) := by
  constructor
  · have h0 : ReachableFrom fetchesFail (initSys 1) sysWorking :=
      Relation.ReflTransGen.refl.tail
        ⟨.pollAcquire, Step.pollAcquire (initSys 1) 0 rfl rfl rfl rfl⟩
    exact h0.tail ⟨.pollPanic, Step.pollPanic sysWorking 0 rfl rfl⟩
  · intro t ht
    have hstart : DeadInv sysDead := by
      refine ⟨rfl, rfl, fun r hr => ?_⟩
      simp only [sysDead, sysWorking, initSys] at hr
      rw [List.mem_replicate] at hr
      exact Or.inl hr.2
    have hinv : DeadInv t := deadInv_reachable fetchesFail sysDead t ht hstart
    refine ⟨hinv.1, hinv.2.1, fun i m hget => ?_⟩
    rcases hinv.2.2 _ (List.get?_mem hget) with h₄ | h₄ <;> cases h₄

/-- Witness for `C3_fetch_failure_kills_poller` at the panicked state
itself. -/
theorem C3_fetch_failure_witness :
    sysDead.poller = PollerState.dead ∧ sysDead.poisoned = true ∧
      ∀ i m, sysDead.readers.get? i ≠ some (.reading m) :=
  C3_fetch_failure_kills_poller.2 sysDead Relation.ReflTransGen.refl

/-- C4 as stated by the spec: in every reachable state, a waiting
request handler can immediately acquire the read lock — handlers never
block waiting on the poller. -/
def readersNeverBlock (fetches : Nat → Option (JsonValue × JsonValue)) : Prop :=
  ∀ n s, ReachableFrom fetches (initSys n) s →
    ∀ i, s.readers.get? i = some .waiting →
      ∃ t, Step fetches (.readAcquire i) s t

/-- C4 (counterexample): in the reachable state where the poller holds
the write lock — which it does for the whole of `list`'s network I/O —
a waiting reader has no acquire step at all: request handling is
stalled until the poller releases the lock. -/
theorem C4_counterexample : ¬ readersNeverBlock fetchesFail := by
  intro h
  have h0 : ReachableFrom fetchesFail (initSys 1) sysWorking :=
    Relation.ReflTransGen.refl.tail
      ⟨.pollAcquire, Step.pollAcquire (initSys 1) 0 rfl rfl rfl rfl⟩
  obtain ⟨t, hstep⟩ := h 1 sysWorking h0 0 rfl
  clear h
  cases hstep with
  | readAcquire s i h₁ h₂ h₃ => exact Bool.noConfusion h₂
  | readPoisoned s i h₁ h₂ h₃ => exact Bool.noConfusion h₂

/-- C4 (amended): a waiting reader acquires the read lock and obtains
the currently published snapshot exactly when the poller does not hold
the write lock (and the lock is not poisoned); while the poller is
inside its critical section — which spans the whole fetch and merge —
no reader can acquire, so the poller's network I/O does stall
concurrent reads. -/
theorem C4_reader_blocked_iff_writer (fetches : Nat → Option (JsonValue × JsonValue))
    (s : Sys) (i : Nat) (hwait : s.readers.get? i = some .waiting) :
    (s.writer = false ∧ s.poisoned = false →
      Step fetches (.readAcquire i) s
        { s with readers := s.readers.set i (.reading s.snap) }) ∧
    (s.writer = true → ∀ t, ¬ Step fetches (.readAcquire i) s t) := by
  constructor
  · rintro ⟨hw, hp⟩
    exact Step.readAcquire s i hwait hw hp
  · intro hw t hstep
    cases hstep with
    | readAcquire s i h₁ h₂ h₃ =>
      rw [hw] at h₂
      exact Bool.noConfusion h₂
    | readPoisoned s i h₁ h₂ h₃ =>
      rw [hw] at h₂
      exact Bool.noConfusion h₂

/-- Witness for `C4_reader_blocked_iff_writer`: with the lock free, the
single waiting reader of the initial state acquires and sees the empty
snapshot. -/
theorem C4_reader_blocked_witness :
    Step fetchesOk (.readAcquire 0) (initSys 1)
      { initSys 1 with readers := (initSys 1).readers.set 0 (.reading (initSys 1).snap) } :=
  (C4_reader_blocked_iff_writer fetchesOk (initSys 1) 0 rfl).1 ⟨rfl, rfl⟩

end Nastie
